import Mathlib

/-!
Shallow embedding of the expense-tracking application:
the local Record Store / Category Store CRUD operations, the
filter/aggregation engine (`src/main.js`), and the spreadsheet-backed
remote endpoint (the Google Apps Script file `src/unnamed/part_000`).

Conventions of the embedding:
* `localStorage` state is passed explicitly: each operation takes the
  current stored value and returns the value it persists.
* JS strings are Lean `String`s; the JS expression `s || ''` on a string
  is embedded literally as `jsOrEmpty`.
* `amount` is an `Int`; `parseInt(expenseData.amount)` is modelled by the
  input already carrying the parsed integer.
* `localeCompare` on the ISO-date and base-36 id strings used by the app
  agrees with code-unit (lexicographic) string comparison, which is how
  it is embedded.
* The nondeterministic `generateId()` value is a parameter of `addExpense`.
-/

/-- An expense record as stored in `expenseTracker:records`. -/
structure ExpenseRecord where
  id : String
  date : String
  category : String
  paymentMethod : String
  amount : Int
  memo : String
deriving DecidableEq, Repr

/-- The form input handed to `addExpense` / `updateExpense`
(`{date, category, paymentMethod, amount, memo}`); `amount` is the
integer `parseInt` produced. -/
structure ExpenseInput where
  date : String
  category : String
  paymentMethod : String
  amount : Int
  memo : String
deriving DecidableEq, Repr

/-- The persisted `expenseTracker:filters` object. JS field names are
`from` / `to`; they are Lean keywords, hence `dateFrom` / `dateTo`. -/
structure FilterState where
  dateFrom : String
  dateTo : String
  category : String
  paymentMethod : String
deriving DecidableEq, Repr

/-- The JS expression `s || ''` for a string `s` (empty string is falsy). -/
def jsOrEmpty (s : String) : String :=
  if s = "" then "" else s

theorem jsOrEmpty_eq (s : String) : jsOrEmpty s = s := by
  unfold jsOrEmpty
  split <;> simp_all

/-- The record object built inside `addExpense` (main.js:949-956). -/
def mkExpense (newId : String) (e : ExpenseInput) : ExpenseRecord :=
  { id := newId
    date := e.date
    category := e.category
    paymentMethod := e.paymentMethod
    amount := e.amount
    memo := jsOrEmpty e.memo }

/-- The spread `{...records[index], date: ..., ..., memo: expenseData.memo || ''}`
performed by `updateExpense` (main.js:977-984): every field except `id`
is replaced. -/
def applyEdit (r : ExpenseRecord) (e : ExpenseInput) : ExpenseRecord :=
  { r with
    date := e.date
    category := e.category
    paymentMethod := e.paymentMethod
    amount := e.amount
    memo := jsOrEmpty e.memo }

/-- Local part of `updateExpense` (main.js:973-995): `findIndex` locates the
first record with the given id; if found its mutable fields are replaced
in place and the updated record is returned, otherwise `null` (here
`none`) is returned and the list is untouched. -/
def updateExpense : List ExpenseRecord → String → ExpenseInput →
    List ExpenseRecord × Option ExpenseRecord
  | [], _, _ => ([], none)
  | r :: rs, i, e =>
    if r.id = i then
      (applyEdit r e :: rs, some (applyEdit r e))
    else
      let (rs', res) := updateExpense rs i e
      (r :: rs', res)

/-- Local part of `deleteExpense` (main.js:1001-1010):
`records.filter(record => record.id !== id)` is persisted; the function
returns nothing. -/
def deleteExpense (records : List ExpenseRecord) (i : String) : List ExpenseRecord :=
  records.filter (fun r => r.id != i)

/-!
### Code-unit string comparison

JS relational operators on strings (`>=`, `<=` in `getFilteredRecords`)
and the locale-independent fragment of `localeCompare` that the app's
ISO-date and base-36 id strings exercise are code-unit lexicographic
comparison, embedded here over `String.data`.
-/

/-- Lexicographic strict comparison on character lists. -/
def lexLt : List Char → List Char → Bool
  | [], [] => false
  | [], _ :: _ => true
  | _ :: _, [] => false
  | a :: as, b :: bs => if a < b then true else if b < a then false else lexLt as bs

/-- JS `a < b` on strings. -/
def strLt (a b : String) : Bool := lexLt a.data b.data

/-- JS `a <= b` on strings. -/
def strLe (a b : String) : Bool := strLt a b || a == b

theorem lexLt_irrefl : ∀ l : List Char, lexLt l l = false := by
  intro l
  induction l with
  | nil => rfl
  | cons a as ih => simp [lexLt, lt_irrefl, ih]

theorem lexLt_asymm : ∀ a b : List Char, lexLt a b = true → lexLt b a = false := by
  intro a
  induction a with
  | nil =>
    intro b _
    cases b <;> rfl
  | cons x xs ih =>
    intro b h
    cases b with
    | nil => exact absurd h (by simp [lexLt])
    | cons y ys =>
      simp only [lexLt] at h ⊢
      rcases lt_trichotomy x y with hxy | hxy | hxy
      · simp [hxy, not_lt_of_lt hxy]
      · subst hxy
        simp only [lt_irrefl, if_false] at h ⊢
        exact ih ys h
      · simp [hxy, not_lt_of_lt hxy] at h

theorem lexLt_trans : ∀ a b c : List Char,
    lexLt a b = true → lexLt b c = true → lexLt a c = true := by
  intro a
  induction a with
  | nil =>
    intro b c hab hbc
    cases b with
    | nil => exact hbc
    | cons y ys =>
      cases c with
      | nil => exact absurd hbc (by simp [lexLt])
      | cons z zs => rfl
  | cons x xs ih =>
    intro b c hab hbc
    cases b with
    | nil => exact absurd hab (by simp [lexLt])
    | cons y ys =>
      cases c with
      | nil => exact absurd hbc (by simp [lexLt])
      | cons z zs =>
        simp only [lexLt] at hab hbc ⊢
        rcases lt_trichotomy x y with hxy | hxy | hxy
        · rcases lt_trichotomy y z with hyz | hyz | hyz
          · simp [lt_trans hxy hyz]
          · subst hyz
            simp [hxy]
          · simp [hyz, not_lt_of_lt hyz] at hbc
        · subst hxy
          rcases lt_trichotomy x z with hyz | hyz | hyz
          · simp [hyz]
          · subst hyz
            simp only [lt_irrefl, if_false] at hab hbc ⊢
            exact ih ys zs hab hbc
          · simp [hyz, not_lt_of_lt hyz] at hbc
        · simp [hxy, not_lt_of_lt hxy] at hab

theorem lexLt_connex : ∀ a b : List Char,
    lexLt a b = false → lexLt b a = false → a = b := by
  intro a
  induction a with
  | nil =>
    intro b hab _
    cases b with
    | nil => rfl
    | cons y ys => exact absurd hab (by simp [lexLt])
  | cons x xs ih =>
    intro b hab hba
    cases b with
    | nil => exact absurd hba (by simp [lexLt])
    | cons y ys =>
      simp only [lexLt] at hab hba
      rcases lt_trichotomy x y with hxy | hxy | hxy
      · simp [hxy] at hab
      · subst hxy
        simp only [lt_irrefl, if_false] at hab hba
        rw [ih ys hab hba]
      · simp [hxy, not_lt_of_lt hxy] at hba

theorem strLt_asymm {a b : String} (h : strLt a b = true) : strLt b a = false :=
  lexLt_asymm a.data b.data h

theorem strLt_trans {a b c : String} (hab : strLt a b = true) (hbc : strLt b c = true) :
    strLt a c = true :=
  lexLt_trans a.data b.data c.data hab hbc

theorem strLt_connex {a b : String} (hab : strLt a b = false) (hba : strLt b a = false) :
    a = b := by
  have h := lexLt_connex a.data b.data hab hba
  cases a
  cases b
  exact congrArg String.mk h

theorem strLt_irrefl (a : String) : strLt a a = false :=
  lexLt_irrefl a.data

theorem strLe_total (a b : String) : strLe a b = true ∨ strLe b a = true := by
  unfold strLe
  cases hab : strLt a b with
  | true => simp
  | false =>
    cases hba : strLt b a with
    | true => simp
    | false =>
      left
      have := strLt_connex hab hba
      simp [this]

theorem strLe_trans {a b c : String} (hab : strLe a b = true) (hbc : strLe b c = true) :
    strLe a c = true := by
  unfold strLe at hab hbc ⊢
  simp only [Bool.or_eq_true, beq_iff_eq] at hab hbc ⊢
  rcases hab with hab | hab
  · rcases hbc with hbc | hbc
    · exact Or.inl (strLt_trans hab hbc)
    · subst hbc
      exact Or.inl hab
  · subst hab
    exact hbc

/-!
### The display ordering of `getFilteredRecords`

The comparator at main.js:1114-1119 orders by `date` descending and, for
equal dates, by `id` descending. `sortLeB a b` says that the comparator
allows `a` at or before `b`.
-/

/-- The sort comparator of `getFilteredRecords` as a weak order test. -/
def sortLeB (a b : ExpenseRecord) : Bool :=
  if a.date = b.date then strLe b.id a.id else strLt b.date a.date

/-- Source `sortLeB` as a relation, for `List.insertionSort`. -/
def recBefore (a b : ExpenseRecord) : Prop := sortLeB a b = true

instance recBefore.decidableRel : DecidableRel recBefore :=
  fun a b => instDecidableEqBool (sortLeB a b) true

instance recBefore.isTotal : IsTotal ExpenseRecord recBefore := by
  constructor
  intro a b
  unfold recBefore sortLeB
  by_cases hd : a.date = b.date
  · rw [if_pos hd, if_pos hd.symm]
    exact strLe_total b.id a.id
  · rw [if_neg hd, if_neg (fun h => hd h.symm)]
    cases hab : strLt b.date a.date with
    | true => exact Or.inl rfl
    | false =>
      cases hba : strLt a.date b.date with
      | true => exact Or.inr rfl
      | false => exact absurd (strLt_connex hba hab) hd

instance recBefore.isTrans : IsTrans ExpenseRecord recBefore := by
  constructor
  intro a b c hab hbc
  unfold recBefore sortLeB at hab hbc ⊢
  by_cases h1 : a.date = b.date <;> by_cases h2 : b.date = c.date
  · rw [if_pos h1] at hab
    rw [if_pos h2] at hbc
    rw [if_pos (h1.trans h2)]
    exact strLe_trans hbc hab
  · rw [if_pos h1] at hab
    rw [if_neg h2] at hbc
    have hac : a.date ≠ c.date := fun h => h2 (h1.symm.trans h)
    rw [if_neg hac, h1]
    exact hbc
  · rw [if_neg h1] at hab
    rw [if_pos h2] at hbc
    have hac : a.date ≠ c.date := fun h => h1 (h.trans h2.symm)
    rw [if_neg hac, ← h2]
    exact hab
  · rw [if_neg h1] at hab
    rw [if_neg h2] at hbc
    have hac : a.date ≠ c.date := by
      intro h
      rw [h] at hab
      exact absurd hab (by rw [strLt_asymm hbc]; exact Bool.false_ne_true)
    rw [if_neg hac]
    exact strLt_trans hbc hab

/-- The ordering the spec describes for the sorted view: by `date`
descending, and for equal dates by `id` descending. -/
def descOrder (a b : ExpenseRecord) : Prop :=
  strLt b.date a.date = true ∨ (a.date = b.date ∧ strLe b.id a.id = true)

theorem recBefore_imp_descOrder {a b : ExpenseRecord} (h : recBefore a b) : descOrder a b := by
  unfold recBefore sortLeB at h
  unfold descOrder
  by_cases hd : a.date = b.date
  · rw [if_pos hd] at h
    exact Or.inr ⟨hd, h⟩
  · rw [if_neg hd] at h
    exact Or.inl h

/-!
### `getFilteredRecords` (main.js:1084-1122)
-/

/-- The four sequential filter stages of `getFilteredRecords`; the stored
filter fields `from` / `to` are truthy exactly when non-empty. -/
def applyFilters (records : List ExpenseRecord) (f : FilterState) : List ExpenseRecord :=
  let byFrom := if f.dateFrom ≠ "" then records.filter (fun r => strLe f.dateFrom r.date)
    else records
  let byTo := if f.dateTo ≠ "" then byFrom.filter (fun r => strLe r.date f.dateTo) else byFrom
  let byCat := if f.category ≠ "ALL" then byTo.filter (fun r => r.category == f.category)
    else byTo
  if f.paymentMethod ≠ "ALL" then byCat.filter (fun r => r.paymentMethod == f.paymentMethod)
  else byCat

/-- Source `getFilteredRecords` as a function of the stored records and filter
state: filter stages followed by the comparator sort. -/
def getFilteredRecords (records : List ExpenseRecord) (f : FilterState) : List ExpenseRecord :=
  List.insertionSort recBefore (applyFilters records f)

/-- The record predicate C4 describes: inside the date bounds (each bound
skipped when empty) and matching the category / payment-method filters
(each skipped when "ALL"). -/
def keptByFilter (f : FilterState) (r : ExpenseRecord) : Bool :=
  (f.dateFrom == "" || strLe f.dateFrom r.date) &&
  (f.dateTo == "" || strLe r.date f.dateTo) &&
  (f.category == "ALL" || r.category == f.category) &&
  (f.paymentMethod == "ALL" || r.paymentMethod == f.paymentMethod)

theorem applyFilters_eq_filter (records : List ExpenseRecord) (f : FilterState) :
    applyFilters records f = records.filter (keptByFilter f) := by
  unfold applyFilters
  by_cases h1 : f.dateFrom = "" <;> by_cases h2 : f.dateTo = "" <;>
    by_cases h3 : f.category = "ALL" <;> by_cases h4 : f.paymentMethod = "ALL" <;>
    simp only [h1, h2, h3, h4, ne_eq, not_true_eq_false, not_false_eq_true, ite_true,
      ite_false, if_true, if_false, List.filter_filter] <;>
    first
    | (refine Eq.symm (List.filter_eq_self.mpr fun a _ => ?_)
       simp [keptByFilter, h1, h2, h3, h4])
    | (refine Eq.symm (List.filter_congr fun a _ => ?_)
       rw [Bool.eq_iff_iff]
       simp only [keptByFilter, h1, h2, h3, h4, Bool.or_eq_true, Bool.and_eq_true, beq_iff_eq,
         beq_self_eq_true, true_or, true_and, false_or]
       try tauto)

/-!
### Aggregation (main.js:1141-1175) and its presentation order
(main.js:1333-1334)
-/

/-- Source `calculateTotal` (main.js:1141-1143):
`records.reduce((sum, record) => sum + record.amount, 0)`. -/
def calculateTotal (records : List ExpenseRecord) : Int :=
  records.foldl (fun sum r => sum + r.amount) 0

/-- One step of the `forEach` loop of `calculateCategorySummary`
(main.js:1152-1157), on the JS object embedded as an insertion-ordered
association list: a missing (or falsy `0`) entry is initialised to `0`,
then the amount is added. -/
def addToSummary : List (String × Int) → String → Int → List (String × Int)
  | [], key, amount => [(key, amount)]
  | (k, v) :: rest, key, amount =>
    if k = key then (k, v + amount) :: rest else (k, v) :: addToSummary rest key amount

/-- Source `calculateCategorySummary` (main.js:1150-1159). -/
def calculateCategorySummary (records : List ExpenseRecord) : List (String × Int) :=
  records.foldl (fun s r => addToSummary s r.category r.amount) []

/-- The presentation order of `renderSummary` (main.js:1333-1334):
entries sorted by summed amount, descending. -/
def entryGe (a b : String × Int) : Prop := b.2 ≤ a.2

instance entryGe.decidableRel : DecidableRel entryGe :=
  fun a b => Int.decLe b.2 a.2

instance entryGe.isTotal : IsTotal (String × Int) entryGe :=
  ⟨fun a b => Int.le_total b.2 a.2⟩

instance entryGe.isTrans : IsTrans (String × Int) entryGe :=
  ⟨fun _ _ _ hab hbc => Int.le_trans hbc hab⟩

/-- Source `Object.entries(categorySummary).sort((a, b) => b[1] - a[1])` as used
for display in `renderSummary` (main.js:1333-1334). -/
def sortedCategorySummary (records : List ExpenseRecord) : List (String × Int) :=
  List.insertionSort entryGe (calculateCategorySummary records)

/-- Sum of the amounts of the records carrying category `c`. -/
def sumForCategory (c : String) (records : List ExpenseRecord) : Int :=
  ((records.filter (fun r => r.category == c)).map (fun r => r.amount)).sum

theorem lookup_addToSummary (s : List (String × Int)) (key : String) (amount : Int)
    (c : String) :
    (addToSummary s key amount).lookup c =
      if c = key then some (((s.lookup c).getD 0) + amount) else s.lookup c := by
  induction s with
  | nil =>
    by_cases h : c = key
    · subst h
      simp [addToSummary, List.lookup]
    · simp [addToSummary, List.lookup, h, beq_eq_false_iff_ne.mpr h]
  | cons kv rest ih =>
    obtain ⟨k, v⟩ := kv
    by_cases hk : k = key
    · subst hk
      by_cases hc : c = k
      · subst hc
        simp [addToSummary, List.lookup]
      · simp [addToSummary, List.lookup, hc, beq_eq_false_iff_ne.mpr hc]
    · by_cases hc : c = k
      · subst hc
        simp [addToSummary, List.lookup, hk]
      · simp [addToSummary, List.lookup, hk, beq_eq_false_iff_ne.mpr hc, ih]

theorem summary_foldl_lookup (records : List ExpenseRecord) :
    ∀ (s : List (String × Int)) (c : String),
      ((records.foldl (fun acc r => addToSummary acc r.category r.amount) s).lookup c) =
        cond (records.any (fun r => r.category == c))
          (some (((s.lookup c).getD 0) + sumForCategory c records))
          (s.lookup c) := by
  induction records with
  | nil =>
    intro s c
    simp [sumForCategory]
  | cons r rest ih =>
    intro s c
    rw [List.foldl_cons, ih (addToSummary s r.category r.amount) c, lookup_addToSummary]
    by_cases hc : r.category = c
    · rw [if_pos hc.symm]
      have hhead : (r.category == c) = true := by simp [hc]
      rw [List.any_cons, hhead, Bool.true_or, Bool.cond_true]
      cases hrest : rest.any (fun q => q.category == c) with
      | true =>
        rw [Bool.cond_true, Option.getD_some]
        have hsum : sumForCategory c (r :: rest) = r.amount + sumForCategory c rest := by
          simp [sumForCategory, hc]
        rw [hsum]
        congr 1
        exact add_assoc _ _ _
      | false =>
        rw [Bool.cond_false]
        have hnil : rest.filter (fun q => q.category == c) = [] := by
          rw [List.filter_eq_nil_iff]
          intro a ha hbeq
          exact absurd (List.any_eq_true.mpr ⟨a, ha, hbeq⟩) (by rw [hrest]; exact Bool.false_ne_true)
        have hsum : sumForCategory c (r :: rest) = r.amount := by
          simp [sumForCategory, hc, hnil]
        rw [hsum]
    · rw [if_neg (fun h => hc h.symm)]
      have hhead : (r.category == c) = false := by simp [hc]
      rw [List.any_cons, hhead, Bool.false_or]
      have hsum : sumForCategory c (r :: rest) = sumForCategory c rest := by
        simp [sumForCategory, hc]
      rw [hsum]

/-!
### Category Store (main.js:1028-1066)
-/

/-- JS `String.prototype.trim()`, embedded over the character list
(whitespace stripped from both ends). -/
def jsTrim (s : String) : String :=
  ⟨((s.data.dropWhile Char.isWhitespace).reverse.dropWhile Char.isWhitespace).reverse⟩

/-- Source `addCategory` (main.js:1028-1046); the persisted category list and the
returned success flag. -/
def addCategory (categories : List String) (categoryName : String) : List String × Bool :=
  if categoryName = "" || jsTrim categoryName = "" then (categories, false)
  else
    let trimmedName := jsTrim categoryName
    if categories.contains trimmedName then (categories, false)
    else (categories ++ [trimmedName], true)

/-- Source `deleteCategory` (main.js:1052-1066); the result of the blocking
`confirm(...)` dialog is the parameter `confirmed`. -/
def deleteCategory (records : List ExpenseRecord) (categories : List String)
    (categoryName : String) (confirmed : Bool) : List String × Bool :=
  let isUsed := records.any (fun r => r.category == categoryName)
  if isUsed && !confirmed then (categories, false)
  else (categories.filter (fun cat => cat != categoryName), true)

/-!
### The remote spreadsheet endpoint (src/unnamed/part_000) and the
client-side bridge (main.js:783-915)

The sheet is modelled by its data rows (the header row of part_000:41 is
fixed and carries no record). A network round trip either completes
(`Transport.ok`) or throws into the client's catch block
(`Transport.fail`).
-/

/-- One data row of the remote sheet: the six ordered cells
`id, date, category, paymentMethod, amount, memo`. -/
structure SheetRow where
  id : String
  date : String
  category : String
  paymentMethod : String
  amount : Int
  memo : String
deriving DecidableEq, Repr

/-- The six-cell row written for a record, with `record.memo || ''`
(part_000:144-151, 168-175, 223-230). -/
def toRow (r : ExpenseRecord) : SheetRow :=
  { id := r.id
    date := r.date
    category := r.category
    paymentMethod := r.paymentMethod
    amount := r.amount
    memo := jsOrEmpty r.memo }

/-- The record object `doGet` builds from a row, with `data[i][5] || ''`
(part_000:65-72). -/
def rowToRecord (row : SheetRow) : ExpenseRecord :=
  { id := row.id
    date := row.date
    category := row.category
    paymentMethod := row.paymentMethod
    amount := row.amount
    memo := jsOrEmpty row.memo }

/-- The row-reading loop of `doGet` (part_000:63-74): a row is converted
only when its id cell is truthy (non-empty). -/
def doGetRecords : List SheetRow → List ExpenseRecord
  | [] => []
  | row :: rest =>
    if row.id != "" then rowToRecord row :: doGetRecords rest
    else doGetRecords rest

/-- Source `syncRecords` (part_000:209-238): every data row is deleted, then one
row per pushed record is written, in order. Returns the synced count. -/
def syncRecords (records : List ExpenseRecord) : List SheetRow × Nat :=
  (records.map toRow, records.length)

/-- Source `addRecord` (part_000:140-154): appends one row after the last row. -/
def gasAddRecord (rows : List SheetRow) (r : ExpenseRecord) : List SheetRow :=
  rows ++ [toRow r]

/-- Source `updateRecord` (part_000:162-181): overwrites the first row whose id
cell matches; throws (`none`) when no row matches. -/
def gasUpdateRecord : List SheetRow → ExpenseRecord → Option (List SheetRow)
  | [], _ => none
  | row :: rest, r =>
    if row.id = r.id then some (toRow r :: rest)
    else (gasUpdateRecord rest r).map (fun rest' => row :: rest')

/-- Source `deleteRecord` (part_000:189-201): deletes the first row whose id cell
matches; throws (`none`) when no row matches. -/
def gasDeleteRecord : List SheetRow → String → Option (List SheetRow)
  | [], _ => none
  | row :: rest, i =>
    if row.id = i then some rest
    else (gasDeleteRecord rest i).map (fun rest' => row :: rest')

/-- The persisted sync configuration: `SPREADSHEET_ENABLED` and
`GAS_WEB_APP_URL` (main.js:771-772). -/
structure SyncConfig where
  enabled : Bool
  gasUrl : String
deriving DecidableEq, Repr

/-- Outcome of the network round trip itself. -/
inductive Transport where
  | ok
  | fail
deriving DecidableEq, Repr

/-- Source `addRecordToSpreadsheet` (main.js:806-828) together with the
server-side `doPost` add action it reaches: disabled/unset config and
transport failure leave the sheet unchanged and return `false`; otherwise
the row is appended and the remote's `success` is returned. -/
def addRecordToSpreadsheet (cfg : SyncConfig) (t : Transport) (rows : List SheetRow)
    (r : ExpenseRecord) : List SheetRow × Bool :=
  if !cfg.enabled || cfg.gasUrl = "" then (rows, false)
  else
    match t with
    | .fail => (rows, false)
    | .ok => (gasAddRecord rows r, true)

/-- Source `updateRecordInSpreadsheet` (main.js:835-857) with the server-side
update action: a remote not-found throw is answered as `success: false`
(part_000:126-131) and leaves the sheet unchanged. -/
def updateRecordInSpreadsheet (cfg : SyncConfig) (t : Transport) (rows : List SheetRow)
    (r : ExpenseRecord) : List SheetRow × Bool :=
  if !cfg.enabled || cfg.gasUrl = "" then (rows, false)
  else
    match t with
    | .fail => (rows, false)
    | .ok =>
      match gasUpdateRecord rows r with
      | some rows' => (rows', true)
      | none => (rows, false)

/-- Source `deleteRecordFromSpreadsheet` (main.js:864-886) with the server-side
delete action; remote not-found is answered as `success: false`. -/
def deleteRecordFromSpreadsheet (cfg : SyncConfig) (t : Transport) (rows : List SheetRow)
    (i : String) : List SheetRow × Bool :=
  if !cfg.enabled || cfg.gasUrl = "" then (rows, false)
  else
    match t with
    | .fail => (rows, false)
    | .ok =>
      match gasDeleteRecord rows i with
      | some rows' => (rows', true)
      | none => (rows, false)

/-!
### The full add/update/delete flows (main.js:947-1010)

Each flow mutates and persists the local record list first, then — only
when `SPREADSHEET_ENABLED` — awaits the corresponding bridge call, whose
result is discarded. The pair returned is
`((local records, sheet rows), value returned to the caller)`.
-/

/-- Source `addExpense` (main.js:947-966). -/
def addExpenseRun (loc : List ExpenseRecord) (rows : List SheetRow) (cfg : SyncConfig)
    (t : Transport) (newId : String) (input : ExpenseInput) :
    (List ExpenseRecord × List SheetRow) × ExpenseRecord :=
  let newExpense := mkExpense newId input
  let loc' := loc ++ [newExpense]
  let rows' := if cfg.enabled then (addRecordToSpreadsheet cfg t rows newExpense).1 else rows
  ((loc', rows'), newExpense)

/-- Source `updateExpense` (main.js:973-995): on a found id the updated record is
persisted and mirrored; on a missing id nothing is persisted, no bridge
call happens, and `null` is returned. -/
def updateExpenseRun (loc : List ExpenseRecord) (rows : List SheetRow) (cfg : SyncConfig)
    (t : Transport) (i : String) (input : ExpenseInput) :
    (List ExpenseRecord × List SheetRow) × Option ExpenseRecord :=
  match updateExpense loc i input with
  | (loc', some r) =>
    let rows' := if cfg.enabled then (updateRecordInSpreadsheet cfg t rows r).1 else rows
    ((loc', rows'), some r)
  | (_, none) => ((loc, rows), none)

/-- Source `deleteExpense` (main.js:1001-1010): the filtered list is persisted,
then the deletion is mirrored; the function returns nothing. -/
def deleteExpenseRun (loc : List ExpenseRecord) (rows : List SheetRow) (cfg : SyncConfig)
    (t : Transport) (i : String) : List ExpenseRecord × List SheetRow :=
  let loc' := deleteExpense loc i
  let rows' := if cfg.enabled then (deleteRecordFromSpreadsheet cfg t rows i).1 else rows
  (loc', rows')

/-!
### Helper lemmas
-/

theorem updateExpense_not_found (records : List ExpenseRecord) (i : String) (e : ExpenseInput)
    (h : ∀ r ∈ records, r.id ≠ i) :
    updateExpense records i e = (records, none) := by
  induction records with
  | nil => rfl
  | cons r rs ih =>
    have hr : r.id ≠ i := h r (List.mem_cons_self r rs)
    have hrs := ih (fun q hq => h q (List.mem_cons_of_mem r hq))
    simp [updateExpense, hr, hrs]

theorem updateExpense_found (pre post : List ExpenseRecord) (r : ExpenseRecord)
    (i : String) (e : ExpenseInput) (hpre : ∀ p ∈ pre, p.id ≠ i) (hr : r.id = i) :
    updateExpense (pre ++ r :: post) i e
      = (pre ++ applyEdit r e :: post, some (applyEdit r e)) := by
  induction pre with
  | nil => simp [updateExpense, hr]
  | cons p ps ih =>
    have hp : p.id ≠ i := hpre p (List.mem_cons_self p ps)
    have hps := ih (fun q hq => hpre q (List.mem_cons_of_mem p hq))
    simp [updateExpense, hp, hps]

theorem rowToRecord_toRow (r : ExpenseRecord) : rowToRecord (toRow r) = r := by
  cases r
  simp [rowToRecord, toRow, jsOrEmpty_eq]

theorem calculateTotal_eq_sum (records : List ExpenseRecord) :
    calculateTotal records = (records.map (fun r => r.amount)).sum := by
  have key : ∀ (l : List ExpenseRecord) (init : Int),
      l.foldl (fun s r => s + r.amount) init = init + (l.map (fun r => r.amount)).sum := by
    intro l
    induction l with
    | nil => intro init; simp
    | cons r rs ih =>
      intro init
      simp [ih, add_assoc]
  simpa [calculateTotal] using key records 0

/-!
### Concrete data for the spec's test cases
-/

/-- A record with given id and date (category/payment/amount fixed), used
by the filtering test case. -/
def mkSample (i d : String) : ExpenseRecord :=
  { id := i, date := d, category := "食費", paymentMethod := "現金", amount := 100, memo := "" }

/-- Records dated 2024-01-01 through 2024-01-05 (filtering test case). -/
def exampleRecords : List ExpenseRecord :=
  [mkSample "a1" "2024-01-01", mkSample "a2" "2024-01-02", mkSample "a3" "2024-01-03",
   mkSample "a4" "2024-01-04", mkSample "a5" "2024-01-05"]

/-- The filter `{from: 2024-01-02, to: 2024-01-04}` of the test case. -/
def exampleFilter : FilterState :=
  { dateFrom := "2024-01-02", dateTo := "2024-01-04", category := "ALL", paymentMethod := "ALL" }

/-- The aggregation test case records. -/
def aggRecords : List ExpenseRecord :=
  [{ id := "b1", date := "2024-01-01", category := "食費", paymentMethod := "現金",
     amount := 100, memo := "" },
   { id := "b2", date := "2024-01-02", category := "食費", paymentMethod := "現金",
     amount := 50, memo := "" },
   { id := "b3", date := "2024-01-03", category := "交通", paymentMethod := "現金",
     amount := 30, memo := "" }]

/-- Two distinct records sharing the id "a". -/
def dupRecA : ExpenseRecord :=
  { id := "a", date := "2024-01-01", category := "食費", paymentMethod := "現金",
    amount := 100, memo := "" }

/-- Second record with the duplicated id "a". -/
def dupRecB : ExpenseRecord :=
  { id := "a", date := "2024-01-02", category := "交通", paymentMethod := "カード",
    amount := 200, memo := "" }

/-- A record whose id is the empty string. -/
def emptyIdRecord : ExpenseRecord :=
  { id := "", date := "2024-01-01", category := "食費", paymentMethod := "現金",
    amount := 100, memo := "" }

/-- A well-formed record with a non-empty id. -/
def sampleRecord : ExpenseRecord :=
  { id := "s1", date := "2024-02-01", category := "食費", paymentMethod := "現金",
    amount := 500, memo := "lunch" }

/-- First record of the update witness store. -/
def wRec1 : ExpenseRecord :=
  { id := "w1", date := "2024-03-01", category := "食費", paymentMethod := "現金",
    amount := 10, memo := "m1" }

/-- Second record of the update witness store. -/
def wRec2 : ExpenseRecord :=
  { id := "w2", date := "2024-03-02", category := "交通", paymentMethod := "カード",
    amount := 20, memo := "m2" }

/-- Replacement fields for the update witness. -/
def wInput : ExpenseInput :=
  { date := "2024-03-05", category := "光熱費", paymentMethod := "振込",
    amount := 30, memo := "memo" }

/-!
### Claim theorems
-/

/-- C1: for every local mutation (add, update, delete) and every input, the
resulting local record-store state and the value returned to the caller
are identical across any two remote outcomes (different sheet contents
and/or transport results), and the local state always equals the pure
local mutation — a remote failure never rolls it back. -/
theorem local_result_independent_of_remote
    (loc : List ExpenseRecord) (rows₁ rows₂ : List SheetRow) (cfg : SyncConfig)
    (t₁ t₂ : Transport) (newId : String) (input editInput : ExpenseInput)
    (editId delId : String) :
    ((addExpenseRun loc rows₁ cfg t₁ newId input).1.1
        = (addExpenseRun loc rows₂ cfg t₂ newId input).1.1
      ∧ (addExpenseRun loc rows₁ cfg t₁ newId input).2
        = (addExpenseRun loc rows₂ cfg t₂ newId input).2
      ∧ (addExpenseRun loc rows₁ cfg t₁ newId input).1.1 = loc ++ [mkExpense newId input])
    ∧ ((updateExpenseRun loc rows₁ cfg t₁ editId editInput).1.1
        = (updateExpenseRun loc rows₂ cfg t₂ editId editInput).1.1
      ∧ (updateExpenseRun loc rows₁ cfg t₁ editId editInput).2
        = (updateExpenseRun loc rows₂ cfg t₂ editId editInput).2)
    ∧ ((deleteExpenseRun loc rows₁ cfg t₁ delId).1
        = (deleteExpenseRun loc rows₂ cfg t₂ delId).1
      ∧ (deleteExpenseRun loc rows₁ cfg t₁ delId).1 = deleteExpense loc delId) := by
  refine ⟨⟨rfl, rfl, rfl⟩, ?_, rfl, rfl⟩
  rcases h : updateExpense loc editId editInput with ⟨loc', ret⟩
  cases ret with
  | none => simp [updateExpenseRun, h]
  | some r => simp [updateExpenseRun, h]

/-- C2 as stated is false on the code: with two records sharing id "a",
`deleteExpense "a"` removes both (size drops by two, not one), and its
observable outcome on a store where the id is absent coincides with that
on a store where it is present — no NotFound is signalled. -/
theorem deleteExpense_claim_counterexample :
    deleteExpense [dupRecA, dupRecB] "a" = []
    ∧ ([dupRecA, dupRecB] : List ExpenseRecord).length = 2
    ∧ (([dupRecA, dupRecB] : List ExpenseRecord).any (fun r => r.id == "a")) = true
    ∧ deleteExpense [dupRecA] "a" = deleteExpense [] "a" := by
  refine ⟨?_, rfl, rfl, ?_⟩ <;> rfl

/-- C2 (amended): `deleteExpense` removes every record whose id matches —
exactly one when the stored ids are pairwise distinct — and when no record
has the id it leaves the store unchanged; it signals nothing in either
case. -/
theorem deleteExpense_amended (records : List ExpenseRecord) (i : String) :
    ((records.map (fun r => r.id)).Nodup →
      records.any (fun r => r.id == i) = true →
      (deleteExpense records i).length + 1 = records.length)
    ∧ (records.any (fun r => r.id == i) = false → deleteExpense records i = records) := by
  constructor
  · induction records with
    | nil =>
      intro _ hany
      simp at hany
    | cons r rs ih =>
      intro hnodup hany
      rw [List.map_cons, List.nodup_cons] at hnodup
      by_cases hr : r.id = i
      · have hrs : deleteExpense rs i = rs := by
          apply List.filter_eq_self.mpr
          intro q hq
          rw [bne_iff_ne]
          intro hqi
          exact hnodup.1 (by
            rw [hr, ← hqi]
            exact List.mem_map_of_mem (fun z => z.id) hq)
        have hdel : deleteExpense (r :: rs) i = deleteExpense rs i := by
          simp [deleteExpense, hr]
        rw [hdel, hrs, List.length_cons]
      · have hany' : rs.any (fun q => q.id == i) = true := by
          rw [List.any_cons, beq_eq_false_iff_ne.mpr hr, Bool.false_or] at hany
          exact hany
        have hdel : deleteExpense (r :: rs) i = r :: deleteExpense rs i := by
          simp [deleteExpense, bne_iff_ne, hr]
        have hlen := ih hnodup.2 hany'
        rw [hdel, List.length_cons, List.length_cons]
        omega
  · intro hany
    apply List.filter_eq_self.mpr
    intro q hq
    rw [bne_iff_ne]
    intro hqi
    exact absurd (beq_iff_eq.mpr hqi) (List.any_eq_false.mp hany q hq)

/-- Witness for the amended C2 at concrete stores. -/
theorem deleteExpense_amended_witness :
    (deleteExpense [dupRecA] "a").length + 1 = ([dupRecA] : List ExpenseRecord).length
    ∧ deleteExpense [dupRecA] "zzz" = [dupRecA] :=
  ⟨(deleteExpense_amended [dupRecA] "a").1 (by decide) (by decide),
   (deleteExpense_amended [dupRecA] "zzz").2 (by decide)⟩

/-- C3: `updateExpense` on a missing id returns `null` and leaves the store
unchanged; on an existing id (located at the first match) it replaces
exactly that record's date, category, paymentMethod, amount and memo with
the input, preserves its id, leaves every other record unchanged, and
returns the updated record. -/
theorem updateExpense_frame (records pre post : List ExpenseRecord) (r : ExpenseRecord)
    (i : String) (e : ExpenseInput) :
    ((∀ q ∈ records, q.id ≠ i) → updateExpense records i e = (records, none))
    ∧ (records = pre ++ r :: post → r.id = i → (∀ p ∈ pre, p.id ≠ i) →
        updateExpense records i e = (pre ++ applyEdit r e :: post, some (applyEdit r e))
        ∧ (applyEdit r e).id = r.id
        ∧ (applyEdit r e).date = e.date
        ∧ (applyEdit r e).category = e.category
        ∧ (applyEdit r e).paymentMethod = e.paymentMethod
        ∧ (applyEdit r e).amount = e.amount
        ∧ (applyEdit r e).memo = e.memo) := by
  constructor
  · exact updateExpense_not_found records i e
  · intro hrec hr hpre
    subst hrec
    exact ⟨updateExpense_found pre post r i e hpre hr, rfl, rfl, rfl, rfl, rfl,
      jsOrEmpty_eq e.memo⟩

/-- Witness for C3 at a concrete store: updating the second of two records
and probing a missing id. -/
theorem updateExpense_frame_witness :
    updateExpense [wRec1, wRec2] "w2" wInput
      = ([wRec1, applyEdit wRec2 wInput], some (applyEdit wRec2 wInput))
    ∧ (applyEdit wRec2 wInput).id = wRec2.id
    ∧ updateExpense [wRec1, wRec2] "zz" wInput = ([wRec1, wRec2], none) :=
  ⟨((updateExpense_frame [wRec1, wRec2] [wRec1] [] wRec2 "w2" wInput).2 rfl rfl
      (by decide)).1,
   ((updateExpense_frame [wRec1, wRec2] [wRec1] [] wRec2 "w2" wInput).2 rfl rfl
      (by decide)).2.1,
   (updateExpense_frame [wRec1, wRec2] [] [] wRec1 "zz" wInput).1 (by decide)⟩

/-- C4: `getFilteredRecords` returns exactly the records passing the four
filter conditions (a permutation of the direct filter), sorted by date
descending and, for equal dates, by id descending; on the records dated
2024-01-01..05 with bounds 2024-01-02..2024-01-04 it returns exactly the
three in-range records, newest first. -/
theorem getFilteredRecords_spec (records : List ExpenseRecord) (f : FilterState) :
    (getFilteredRecords records f).Perm (records.filter (keptByFilter f))
    ∧ List.Sorted descOrder (getFilteredRecords records f)
    ∧ getFilteredRecords exampleRecords exampleFilter
        = [mkSample "a4" "2024-01-04", mkSample "a3" "2024-01-03", mkSample "a2" "2024-01-02"] := by
  refine ⟨?_, ?_, ?_⟩
  · rw [getFilteredRecords, applyFilters_eq_filter]
    exact List.perm_insertionSort recBefore _
  · exact List.Pairwise.imp (fun h => recBefore_imp_descOrder h)
      (List.sorted_insertionSort recBefore _)
  · decide

/-- C5 as stated is false on the code: a record whose id is the empty
string is written to the sheet by `syncRecords` but skipped by `doGet`,
so the round trip loses it. -/
theorem syncRecords_roundTrip_counterexample :
    doGetRecords (syncRecords [emptyIdRecord]).1 = []
    ∧ emptyIdRecord ∈ ([emptyIdRecord] : List ExpenseRecord)
    ∧ emptyIdRecord ∉ doGetRecords (syncRecords [emptyIdRecord]).1 := by
  refine ⟨rfl, List.mem_cons_self _ _, ?_⟩
  intro h
  simp [syncRecords, doGetRecords, toRow, emptyIdRecord] at h

/-- C5 (amended): when every pushed record has a non-empty id,
`syncRecords` followed by `doGet` returns exactly the pushed records (in
pushed order, hence equal as sets). -/
theorem syncRecords_roundTrip (records : List ExpenseRecord)
    (h : records.all (fun r => r.id != "") = true) :
    doGetRecords (syncRecords records).1 = records := by
  induction records with
  | nil => rfl
  | cons r rs ih =>
    rw [List.all_cons, Bool.and_eq_true] at h
    have hid : ((toRow r).id != "") = true := h.1
    have hrs : doGetRecords (syncRecords rs).1 = rs := ih h.2
    show (if (toRow r).id != "" then rowToRecord (toRow r) :: doGetRecords (rs.map toRow)
          else doGetRecords (rs.map toRow)) = r :: rs
    rw [if_pos hid, rowToRecord_toRow]
    exact congrArg (fun l => r :: l) hrs

/-- Witness for the amended C5 at a concrete record. -/
theorem syncRecords_roundTrip_witness :
    doGetRecords (syncRecords [sampleRecord]).1 = [sampleRecord] :=
  syncRecords_roundTrip [sampleRecord] (by decide)

/-- C6: `calculateTotal` sums the amounts (0 for the empty list);
`calculateCategorySummary` has an entry exactly for each category
occurring in the records, holding the sum of that category's amounts; the
presentation order of `renderSummary` is descending by summed amount; the
test-case records total 180 and present 食費 150 before 交通 30. -/
theorem aggregation_spec (records : List ExpenseRecord) (c : String) :
    calculateTotal records = (records.map (fun r => r.amount)).sum
    ∧ ((calculateCategorySummary records).lookup c
        = cond (records.any (fun r => r.category == c)) (some (sumForCategory c records)) none)
    ∧ List.Sorted entryGe (sortedCategorySummary records)
    ∧ (sortedCategorySummary records).Perm (calculateCategorySummary records)
    ∧ calculateTotal aggRecords = 180
    ∧ sortedCategorySummary aggRecords = [("食費", 150), ("交通", 30)] := by
  refine ⟨calculateTotal_eq_sum records, ?_, List.sorted_insertionSort entryGe _,
    List.perm_insertionSort entryGe _, by decide, by decide⟩
  have hlook := summary_foldl_lookup records [] c
  simpa [calculateCategorySummary] using hlook

/-- C7: `addCategory` returns `false` and leaves the stored list unchanged
when the name trims to empty or the trimmed name is already stored;
otherwise it appends the trimmed name and returns `true`. -/
theorem addCategory_spec (categories : List String) (categoryName : String) :
    (jsTrim categoryName = "" → addCategory categories categoryName = (categories, false))
    ∧ (jsTrim categoryName ≠ "" → jsTrim categoryName ∈ categories →
        addCategory categories categoryName = (categories, false))
    ∧ (jsTrim categoryName ≠ "" → jsTrim categoryName ∉ categories →
        addCategory categories categoryName = (categories ++ [jsTrim categoryName], true)) := by
  refine ⟨?_, ?_, ?_⟩
  · intro h
    simp [addCategory, h]
  · intro h hmem
    have hne : categoryName ≠ "" := by
      intro hempty
      exact h (by rw [hempty]; rfl)
    have hcontains : categories.contains (jsTrim categoryName) = true := by
      simpa [List.contains] using List.elem_iff.mpr hmem
    simp [addCategory, h, hne, hcontains, hmem]
  · intro h hmem
    have hne : categoryName ≠ "" := by
      intro hempty
      exact h (by rw [hempty]; rfl)
    have hcontains : categories.contains (jsTrim categoryName) = false := by
      cases hc : categories.contains (jsTrim categoryName) with
      | false => rfl
      | true =>
        exact absurd (List.elem_iff.mp (by simpa [List.contains] using hc)) hmem
    simp [addCategory, h, hne, hcontains, hmem]

/-- Witness for C7: a whitespace-only name, a duplicate (with surrounding
whitespace trimmed) and a fresh name. -/
theorem addCategory_spec_witness :
    addCategory ["食費"] "  " = (["食費"], false)
    ∧ addCategory ["食費"] " 食費 " = (["食費"], false)
    ∧ addCategory ["食費"] "交通" = (["食費", "交通"], true) :=
  ⟨(addCategory_spec ["食費"] "  ").1 (by decide),
   (addCategory_spec ["食費"] " 食費 ").2.1 (by decide) (by decide),
   (addCategory_spec ["食費"] "交通").2.2 (by decide) (by decide)⟩

/-- C8: the records returned by the `doGet` loop are exactly the non-empty-id
rows converted in order, and every returned record has a non-empty id —
a remotely stored row with an empty id cell is never returned. -/
theorem doGetRecords_spec (rows : List SheetRow) :
    doGetRecords rows = (rows.filter (fun row => row.id != "")).map rowToRecord
    ∧ (doGetRecords rows).all (fun r => r.id != "") = true := by
  induction rows with
  | nil => exact ⟨rfl, rfl⟩
  | cons row rest ih =>
    cases h : (row.id != "") with
    | true =>
      refine ⟨?_, ?_⟩
      · simp [doGetRecords, h, List.filter_cons, ih.1]
      · simp [doGetRecords, h, List.all_cons, ih.2, rowToRecord]
    | false =>
      have hd : doGetRecords (row :: rest) = doGetRecords rest := by
        simp [doGetRecords, h]
      have hf : (row :: rest).filter (fun q => q.id != "")
          = rest.filter (fun q => q.id != "") := by
        simp [List.filter_cons, h]
      exact ⟨by rw [hd, hf, ih.1], by rw [hd]; exact ih.2⟩

/-- C9: deleting by id is idempotent — `deleteExpense` filters out every
record whose id matches, so a second application removes nothing. -/
theorem deleteExpense_idempotent (records : List ExpenseRecord) (i : String) :
    deleteExpense (deleteExpense records i) i = deleteExpense records i
    ∧ (deleteExpense records i).all (fun r => r.id != i) = true := by
  constructor
  · simp [deleteExpense, List.filter_filter]
  · induction records with
    | nil => rfl
    | cons r rs ih =>
      cases h : (r.id != i) with
      | true =>
        have hstep : deleteExpense (r :: rs) i = r :: deleteExpense rs i := by
          simp [deleteExpense, h]
        rw [hstep, List.all_cons, h, Bool.true_and]
        exact ih
      | false =>
        have hstep : deleteExpense (r :: rs) i = deleteExpense rs i := by
          simp [deleteExpense, h]
        rw [hstep]
        exact ih

/-- C10: for a name no record references, `deleteCategory` skips the
confirmation, reports success, and — when the name is absent from the
stored list — re-persists the list unchanged. -/
theorem deleteCategory_unreferenced (records : List ExpenseRecord) (categories : List String)
    (categoryName : String) (confirmed : Bool)
    (h : records.all (fun r => r.category != categoryName) = true) :
    (deleteCategory records categories categoryName confirmed).2 = true
    ∧ (categoryName ∉ categories →
        (deleteCategory records categories categoryName confirmed).1 = categories) := by
  have hused : records.any (fun r => r.category == categoryName) = false := by
    rw [List.any_eq_false]
    intro r hr
    have hb := List.all_eq_true.mp h r hr
    rw [bne_iff_ne] at hb
    intro hbeq
    exact hb (beq_iff_eq.mp hbeq)
  constructor
  · simp [deleteCategory, hused]
  · intro hnotin
    have hfix : categories.filter (fun cat => cat != categoryName) = categories := by
      apply List.filter_eq_self.mpr
      intro a ha
      rw [bne_iff_ne]
      intro hEq
      exact hnotin (hEq ▸ ha)
    simp [deleteCategory, hused, hfix]

/-- Witness for C10: removing a category not referenced by the records and
absent from the stored list. -/
theorem deleteCategory_unreferenced_witness :
    (deleteCategory [sampleRecord] ["食費"] "趣味" false).2 = true
    ∧ (deleteCategory [sampleRecord] ["食費"] "趣味" false).1 = ["食費"] :=
  ⟨(deleteCategory_unreferenced [sampleRecord] ["食費"] "趣味" false (by decide)).1,
   (deleteCategory_unreferenced [sampleRecord] ["食費"] "趣味" false (by decide)).2
     (by decide)⟩
